import Mathlib

/-!
# Verification of the DNS packet core of chinadns-ng (`src/dns.c`)

Shallow embedding of the four operations of `src/dns.c`:

* `decode_name`     — dotted-ASCII decoding of one encoded domain name;
* `check_packet`    — the query/reply packet validator (entry points
  `dns_query_check` / `dns_reply_check`);
* `skip_name`       — the answer-section name skipper;
* `dns_chnip_check` — the answer-section address-membership scanner.

A packet buffer is modelled as a total byte-fetch function `Nat → Nat`
(byte at a given offset); machine pointers become offsets, `ssize_t`
remaining lengths become `Int` (they may transiently go negative exactly
where the C counters may), and out-parameters become return values.
The C loops are embedded as structurally recursive functions over an
explicit fuel argument; every top-level entry supplies a fuel that is
provably sufficient (each loop iteration strictly consumes remaining
length), so the fuel never changes the computed result.

The numeric constants of `dns.h` / `net.h` (not part of the provided
sources) are modelled from the spec: protocol-fixed ceilings, the fixed
header/question/record sizes of the wire format, and the closed
four-outcome enumeration of the scanner.
-/

namespace ChinaDNS

/-- Modelled from the spec: minimum packet size (fixed header + minimum
encoded name + fixed question record), `dns.h` is not among the sources. -/
def DNS_PACKET_MINSIZE : Int := 17

/-- Modelled from the spec: maximum packet size ceiling from `dns.h`. -/
def DNS_PACKET_MAXSIZE : Int := 1472

/-- Modelled from the spec: minimum length of an encoded name (just the
terminating zero byte). -/
def DNS_NAME_ENC_MINLEN : Nat := 1

/-- Modelled from the spec: maximum length of an encoded name. -/
def DNS_NAME_ENC_MAXLEN : Nat := 255

/-- Modelled from the spec: maximum length of one name label. -/
def DNS_DNAME_LABEL_MAXLEN : Nat := 63

/-- Modelled from the spec: smallest length-byte value whose top two bits
are both set (compression pointer marker). -/
def DNS_DNAME_COMPRESSION_MINVAL : Nat := 192

/-- Modelled from the spec: size of the fixed `dns_header_t` wire header. -/
def SIZEOF_DNS_HEADER : Nat := 12

/-- Modelled from the spec: size of the fixed `dns_query_t` question record
(16-bit type + 16-bit class). -/
def SIZEOF_DNS_QUERY : Nat := 4

/-- Modelled from the spec: size of the fixed `dns_record_t` resource-record
fields (type + class + TTL + rdata length). -/
def SIZEOF_DNS_RECORD : Nat := 10

/-- Modelled from the spec: header query/response flag value for a query. -/
def DNS_QR_QUERY : Nat := 0

/-- Modelled from the spec: header query/response flag value for a reply. -/
def DNS_QR_REPLY : Nat := 1

/-- Modelled from the spec: the standard query opcode. -/
def DNS_OPCODE_QUERY : Nat := 0

/-- Modelled from the spec: the standard Internet class. -/
def DNS_CLASS_INTERNET : Nat := 1

/-- Modelled from the spec: record type of an IPv4 address record. -/
def DNS_RECORD_TYPE_A : Nat := 1

/-- Modelled from the spec: record type of an IPv6 address record. -/
def DNS_RECORD_TYPE_AAAA : Nat := 28

/-- Modelled from the spec: size of a raw IPv4 address (`net.h`). -/
def IPV4_BINADDR_LEN : Nat := 4

/-- Modelled from the spec: size of a raw IPv6 address (`net.h`). -/
def IPV6_BINADDR_LEN : Nat := 16

/-- Modelled from the spec: scanner outcome, answer address in the set. -/
def DNS_IPCHK_IS_CHNIP : Nat := 0

/-- Modelled from the spec: scanner outcome, answer address not in the set. -/
def DNS_IPCHK_NOT_CHNIP : Nat := 1

/-- Modelled from the spec: scanner outcome, no A/AAAA answer found. -/
def DNS_IPCHK_NOT_FOUND : Nat := 2

/-- Modelled from the spec: scanner outcome, structurally bad packet. -/
def DNS_IPCHK_BAD_PACKET : Nat := 3

/-- The header query/response bit: top bit of wire byte 2
(`header->qr` in `dns.c`). -/
def qr_of (buf : Nat → Nat) : Nat := buf 2 / 128

/-- The header opcode: bits 3..6 of wire byte 2 (`header->opcode`). -/
def opcode_of (buf : Nat → Nat) : Nat := buf 2 / 8 % 16

/-- Big-endian 16-bit read, i.e. `ntohs` applied to two wire bytes. -/
def read16 (buf : Nat → Nat) (p : Nat) : Nat := buf p * 256 + buf (p + 1)

/-- `memchr(start + j, 0, rem)` relative to a fixed base `s`: index of the
first zero byte among `buf (s+j) .. buf (s+j+rem-1)`, if any. -/
def memchr0_from (buf : Nat → Nat) (s : Nat) : Nat → Nat → Option Nat
  | _, 0 => none
  | j, rem + 1 => if buf (s + j) = 0 then some j else memchr0_from buf s (j + 1) rem

/-- `memchr(buf + s, 0, n)` of `dns.c` line 89, returning the offset of the
first zero byte relative to `s`. -/
def memchr0 (buf : Nat → Nat) (s n : Nat) : Option Nat := memchr0_from buf s 0 n

/-- The label-copying loop of `decode_name` (`dns.c` lines 25-43), embedded
with explicit fuel (each iteration consumes at least 2 of `len`, so fuel
`len.toNat` is always sufficient).  `pos` is the offset of the next length
byte inside the encoded name, `len` the remaining declared length after the
initial `--len`.  On success the returned list is the NUL-terminated string
the C code has produced in the output buffer (the initial `memcpy` plus the
separator overwrites): the labels joined by `.` followed by the byte copied
from the end of the encoded name (the terminator). -/
def decode_name_go (src : Nat → Nat) : Nat → Nat → Int → Bool → Option (List Nat)
  | 0, pos, len, _ =>
    if 2 ≤ len then none
    else if len ≠ 0 then none
    else some [src pos]
  | fuel + 1, pos, len, first =>
    if 2 ≤ len then
      let label_len := src pos
      if label_len < 1 then none
      else if DNS_DNAME_LABEL_MAXLEN < label_len then none
      else if len - 1 < (label_len : Int) then none
      else
        match decode_name_go src fuel (pos + 1 + label_len) (len - 1 - (label_len : Int)) false with
        | none => none
        | some rest =>
          some ((if first then [] else [46]) ++
                ((List.range label_len).map fun j => src (pos + 1 + j)) ++ rest)
    else if len ≠ 0 then none
    else some [src pos]

/-- `decode_name` of `dns.c` lines 12-51.  `src` fetches the bytes of the
encoded name (offset 0 = first length byte), `len` is the declared encoded
length including the terminator.  Returns the NUL-terminated decoded string
written to the output buffer on success (`46` is ASCII `.`), `none` on
decode failure (in which case the C output buffer holds partial data and is
undefined for the caller). -/
def decode_name (src : Nat → Nat) (len : Int) : Option (List Nat) :=
  if len ≤ (DNS_NAME_ENC_MINLEN : Int) then some [46, 0]
  else decode_name_go src (len - 1).toNat 0 (len - 1) true

/-- Result of `check_packet`: the boolean verdict, the value stored through
`p_namelen` if the code executed that store (`none` = out-slot untouched),
and the fully decoded name if `decode_name` was invoked and succeeded
(on decode failure the C name buffer holds partial data, modelled `none`). -/
structure CheckResult where
  ok : Bool
  wrote_namelen : Option Nat
  name_out : Option (List Nat)
deriving Repr, DecidableEq

/-- `check_packet` of `dns.c` lines 54-132.  `has_name_buf` models
`name_buf != NULL`, `has_p_namelen` models `p_namelen != NULL`. -/
def check_packet (is_query : Bool) (buf : Nat → Nat) (packet_len : Int)
    (has_name_buf has_p_namelen : Bool) : CheckResult :=
  if packet_len < DNS_PACKET_MINSIZE then ⟨false, none, none⟩
  else if DNS_PACKET_MAXSIZE < packet_len then ⟨false, none, none⟩
  else if qr_of buf ≠ (if is_query then DNS_QR_QUERY else DNS_QR_REPLY) then ⟨false, none, none⟩
  else if opcode_of buf ≠ DNS_OPCODE_QUERY then ⟨false, none, none⟩
  else if read16 buf 4 ≠ 1 then ⟨false, none, none⟩
  else
    match memchr0 buf SIZEOF_DNS_HEADER (packet_len - (SIZEOF_DNS_HEADER : Int)).toNat with
    | none => ⟨false, none, none⟩
    | some i =>
      let namelen := i + 1
      if namelen < DNS_NAME_ENC_MINLEN then ⟨false, none, none⟩
      else if DNS_NAME_ENC_MAXLEN < namelen then ⟨false, none, none⟩
      else
        let dec : Option (List Nat) :=
          if has_name_buf then
            decode_name (fun j => buf (SIZEOF_DNS_HEADER + j)) (namelen : Int)
          else none
        if has_name_buf ∧ dec = none then ⟨false, none, none⟩
        else
          let wrote := if has_p_namelen then some namelen else none
          if packet_len - (SIZEOF_DNS_HEADER : Int) - (namelen : Int) < (SIZEOF_DNS_QUERY : Int) then
            ⟨false, wrote, dec⟩
          else if read16 buf (SIZEOF_DNS_HEADER + namelen + 2) ≠ DNS_CLASS_INTERNET then
            ⟨false, wrote, dec⟩
          else ⟨true, wrote, dec⟩

/-- `dns_query_check` of `dns.c` line 222. -/
def dns_query_check (buf : Nat → Nat) (packet_len : Int)
    (has_name_buf has_p_namelen : Bool) : CheckResult :=
  check_packet true buf packet_len has_name_buf has_p_namelen

/-- `dns_reply_check` of `dns.c` line 227. -/
def dns_reply_check (buf : Nat → Nat) (packet_len : Int)
    (has_name_buf has_p_namelen : Bool) : CheckResult :=
  check_packet false buf packet_len has_name_buf has_p_namelen

/-- The `while (len > 0)` loop of `skip_name` (`dns.c` lines 142-159),
with explicit fuel (each iteration consumes at least 1 of `len`, so fuel
`len.toNat` is always sufficient).  `none` models `return false` at the
label-length check; `some (ptr, len)` models falling out of the loop with
the updated cursor and remaining length (which may be negative, exactly as
the C `ssize_t` counter may). -/
def skip_name_loop (buf : Nat → Nat) : Nat → Nat → Int → Option (Nat × Int)
  | 0, ptr, len => some (ptr, len)
  | fuel + 1, ptr, len =>
    if 0 < len then
      let label_len := buf ptr
      if label_len = 0 then some (ptr + 1, len - 1)
      else if DNS_DNAME_COMPRESSION_MINVAL ≤ label_len then some (ptr + 2, len - 2)
      else if DNS_DNAME_LABEL_MAXLEN < label_len then none
      else skip_name_loop buf fuel (ptr + 1 + label_len) (len - (1 + (label_len : Int)))
    else some (ptr, len)

/-- `skip_name` of `dns.c` lines 138-169: skip one (possibly compressed)
name, then require at least `sizeof(dns_record_t)` remaining bytes.
`some (ptr, len)` models `return true` with the out-parameters updated;
`none` models `return false` (out-parameters untouched). -/
def skip_name (buf : Nat → Nat) (ptr : Nat) (len : Int) : Option (Nat × Int) :=
  match skip_name_loop buf len.toNat ptr len with
  | none => none
  | some (ptr2, len2) =>
    if len2 < (SIZEOF_DNS_RECORD : Int) then none
    else some (ptr2, len2)

/-- The `for (i < answer_count)` loop of `dns_chnip_check` (`dns.c`
lines 181-215).  The first argument pair models the external
`ipset_addr_is_exists` predicate, split by address family; the `Nat`
fuel is the number of answer records still to examine (the C loop bound). -/
def chnip_loop (s4 s6 : List Nat → Bool) (buf : Nat → Nat) : Nat → Nat → Int → Nat
  | 0, _, _ => DNS_IPCHK_NOT_FOUND
  | i + 1, off, len =>
    match skip_name buf off len with
    | none => DNS_IPCHK_BAD_PACKET
    | some (off2, len2) =>
      if read16 buf (off2 + 2) ≠ DNS_CLASS_INTERNET then DNS_IPCHK_BAD_PACKET
      else
        let rdatalen := read16 buf (off2 + 8)
        let recordlen := SIZEOF_DNS_RECORD + rdatalen
        if len2 < (recordlen : Int) then DNS_IPCHK_BAD_PACKET
        else if read16 buf off2 = DNS_RECORD_TYPE_A then
          if rdatalen ≠ IPV4_BINADDR_LEN then DNS_IPCHK_BAD_PACKET
          else if s4 ((List.range IPV4_BINADDR_LEN).map fun j => buf (off2 + SIZEOF_DNS_RECORD + j))
          then DNS_IPCHK_IS_CHNIP else DNS_IPCHK_NOT_CHNIP
        else if read16 buf off2 = DNS_RECORD_TYPE_AAAA then
          if rdatalen ≠ IPV6_BINADDR_LEN then DNS_IPCHK_BAD_PACKET
          else if s6 ((List.range IPV6_BINADDR_LEN).map fun j => buf (off2 + SIZEOF_DNS_RECORD + j))
          then DNS_IPCHK_IS_CHNIP else DNS_IPCHK_NOT_CHNIP
        else chnip_loop s4 s6 buf i (off2 + recordlen) (len2 - (recordlen : Int))

/-- `dns_chnip_check` of `dns.c` lines 172-219.  `s4`/`s6` model the
external address-membership set (`ipset_addr_is_exists` with `is_ipv4`
true/false), applied to the raw rdata bytes. -/
def dns_chnip_check (s4 s6 : List Nat → Bool) (buf : Nat → Nat)
    (packet_len : Int) (namelen : Nat) : Nat :=
  let answer_count := read16 buf 6
  let off := SIZEOF_DNS_HEADER + namelen + SIZEOF_DNS_QUERY
  let len := packet_len - ((SIZEOF_DNS_HEADER + namelen + SIZEOF_DNS_QUERY : Nat) : Int)
  chnip_loop s4 s6 buf answer_count off len

/-! ## Well-formed encoded names (reference predicates for `decode_name`)

`lens` is the list of label lengths of an encoded name, in order; the
label bytes and the length bytes live in `src` at the positions the wire
format dictates. -/

/-- Number of bytes occupied by the labels of an encoded name (one length
byte plus the label data, per label), excluding the terminator. -/
def encSize : List Nat → Nat
  | [] => 0
  | l :: ls => 1 + l + encSize ls

/-- Every label length is in `[1, 63]`. -/
def goodLens (lens : List Nat) : Prop :=
  ∀ l ∈ lens, 1 ≤ l ∧ l ≤ DNS_DNAME_LABEL_MAXLEN

instance (lens : List Nat) : Decidable (goodLens lens) := by
  unfold goodLens; infer_instance

/-- The length bytes of `src`, starting at `pos`, spell exactly `lens`. -/
def lensMatch (src : Nat → Nat) : Nat → List Nat → Bool
  | _, [] => true
  | pos, l :: ls => src pos == l && lensMatch src (pos + 1 + l) ls

/-- The label byte sequences of the encoded name described by `lens`. -/
def labelsOf (src : Nat → Nat) : Nat → List Nat → List (List Nat)
  | _, [] => []
  | pos, l :: ls => ((List.range l).map fun j => src (pos + 1 + j)) :: labelsOf src (pos + 1 + l) ls

/-- Join with a leading `.` (ASCII 46) before every element. -/
def joinDotsPre : List (List Nat) → List Nat
  | [] => []
  | x :: xs => 46 :: (x ++ joinDotsPre xs)

/-- Labels joined by `.` separators, in original order. -/
def joinDots : List (List Nat) → List Nat
  | [] => []
  | x :: xs => x ++ joinDotsPre xs

/-- The output `decode_name_go` produces for the name described by `lens`
when it is not the first name component chain (separator before every
label), ending with the byte at the terminator position. -/
def decodedF (src : Nat → Nat) : Nat → List Nat → List Nat
  | pos, [] => [src pos]
  | pos, l :: ls => 46 :: (((List.range l).map fun j => src (pos + 1 + j)) ++ decodedF src (pos + 1 + l) ls)

/-- Same as `decodedF` but with no separator before the first label. -/
def decodedT (src : Nat → Nat) : Nat → List Nat → List Nat
  | pos, [] => [src pos]
  | pos, l :: ls => ((List.range l).map fun j => src (pos + 1 + j)) ++ decodedF src (pos + 1 + l) ls

/-! ## Structural cleanliness of an answer section (reference predicate
for the scanner) -/

/-- `answers_clean buf n off len` holds when the next `n` answer records,
starting at cursor `off` with remaining length `len`, each have a
skippable name, Internet class, a rdata length that fits in the remaining
bytes, and a type that is neither A nor AAAA. -/
def answers_clean (buf : Nat → Nat) : Nat → Nat → Int → Bool
  | 0, _, _ => true
  | i + 1, off, len =>
    match skip_name buf off len with
    | none => false
    | some (off2, len2) =>
      read16 buf (off2 + 2) == DNS_CLASS_INTERNET
      && decide (((SIZEOF_DNS_RECORD + read16 buf (off2 + 8) : Nat) : Int) ≤ len2)
      && !(read16 buf off2 == DNS_RECORD_TYPE_A)
      && !(read16 buf off2 == DNS_RECORD_TYPE_AAAA)
      && answers_clean buf i (off2 + (SIZEOF_DNS_RECORD + read16 buf (off2 + 8)))
           (len2 - ((SIZEOF_DNS_RECORD + read16 buf (off2 + 8) : Nat) : Int))

/-! ## Store-passing embedding of the writing operations

`check_packet` and `decode_name` are the only operations of `dns.c` that
write through a pointer (`name_buf`, plus the separate `p_namelen`
out-slot); `skip_name` and `dns_chnip_check` take `const` buffers and
return their results through caller-local variables, so they are embedded
as pure functions.  To settle the frame claim we re-embed the writers over
an explicit byte memory `Nat → Nat`: the packet lives at base `pb`, the
name buffer at base `out`, and every store is explicit. -/

/-- One byte store. -/
def memWrite (m : Nat → Nat) (a v : Nat) : Nat → Nat :=
  fun i => if i = a then v else m i

/-- `memcpy(dst, src, n)`; `restrict` guarantees the regions do not
overlap, so the bytes copied are read from the pre-state. -/
def memcpy (m : Nat → Nat) (dst src n : Nat) : Nat → Nat :=
  fun i => if dst ≤ i ∧ i < dst + n then m (src + (i - dst)) else m i

/-- Store-passing form of the `decode_name` loop: `outp`/`srcp` are the
absolute addresses of the C `out`/`src` pointers.  Returns the final
memory and the boolean verdict. -/
def decode_name_go_st : Nat → (Nat → Nat) → Nat → Nat → Int → Bool → ((Nat → Nat) × Bool)
  | 0, m, _, _, len, _ =>
    if 2 ≤ len then (m, false)
    else if len ≠ 0 then (m, false)
    else (m, true)
  | fuel + 1, m, outp, srcp, len, first =>
    if 2 ≤ len then
      let m1 := if first then m else memWrite m outp 46
      let outp1 := if first then outp else outp + 1
      let label_len := m1 srcp
      if label_len < 1 then (m1, false)
      else if DNS_DNAME_LABEL_MAXLEN < label_len then (m1, false)
      else if len - 1 < (label_len : Int) then (m1, false)
      else decode_name_go_st fuel m1 (outp1 + label_len) (srcp + 1 + label_len)
             (len - 1 - (label_len : Int)) false
    else if len ≠ 0 then (m, false)
    else (m, true)

/-- Store-passing form of `decode_name`: the encoded name lives at
address `src`, the output buffer at address `out`. -/
def decode_name_st (m : Nat → Nat) (out src : Nat) (len : Int) : ((Nat → Nat) × Bool) :=
  if len ≤ (DNS_NAME_ENC_MINLEN : Int) then (memWrite (memWrite m out 46) (out + 1) 0, true)
  else
    let m1 := memcpy m out (src + 1) (len - 1).toNat
    decode_name_go_st (len - 1).toNat m1 out src (len - 1) true

/-- Store-passing form of `check_packet`: the packet lives at base `pb`
inside memory `m`; `name_buf` is the address of the output name buffer
(or `none` for a NULL pointer); the `p_namelen` slot is modelled as the
third component of the result (it is a separate `size_t` object, not a
byte of this memory).  Returns (final memory, verdict, namelen slot). -/
def check_packet_st (is_query : Bool) (m : Nat → Nat) (pb : Nat) (packet_len : Int)
    (name_buf : Option Nat) (has_p_namelen : Bool) : ((Nat → Nat) × Bool × Option Nat) :=
  if packet_len < DNS_PACKET_MINSIZE then (m, false, none)
  else if DNS_PACKET_MAXSIZE < packet_len then (m, false, none)
  else if m (pb + 2) / 128 ≠ (if is_query then DNS_QR_QUERY else DNS_QR_REPLY) then (m, false, none)
  else if m (pb + 2) / 8 % 16 ≠ DNS_OPCODE_QUERY then (m, false, none)
  else if m (pb + 4) * 256 + m (pb + 4 + 1) ≠ 1 then (m, false, none)
  else
    match memchr0 m (pb + SIZEOF_DNS_HEADER) (packet_len - (SIZEOF_DNS_HEADER : Int)).toNat with
    | none => (m, false, none)
    | some i =>
      let namelen := i + 1
      if namelen < DNS_NAME_ENC_MINLEN then (m, false, none)
      else if DNS_NAME_ENC_MAXLEN < namelen then (m, false, none)
      else
        let step : (Nat → Nat) × Bool :=
          match name_buf with
          | some out => decode_name_st m out (pb + SIZEOF_DNS_HEADER) (namelen : Int)
          | none => (m, true)
        if step.2 = false then (step.1, false, none)
        else
          let wrote := if has_p_namelen then some namelen else none
          if packet_len - (SIZEOF_DNS_HEADER : Int) - (namelen : Int) < (SIZEOF_DNS_QUERY : Int) then
            (step.1, false, wrote)
          else if step.1 (pb + SIZEOF_DNS_HEADER + namelen + 2) * 256 +
                  step.1 (pb + SIZEOF_DNS_HEADER + namelen + 2 + 1) ≠ DNS_CLASS_INTERNET then
            (step.1, false, wrote)
          else (step.1, true, wrote)

/-! ## Concrete packets used by the witnesses -/

/-- View a byte list as a byte-fetch function (reads past the end give 0;
no theorem relies on those positions). -/
def bufOf (l : List Nat) : Nat → Nat := fun i => l.getD i 0

/-- A 36-byte reply packet: header (qr=1, opcode 0, 1 question, 1 answer),
question name `"\2cn"`, question type A class IN, one answer whose name is
the compression pointer `[192,12]`, type A, class IN, TTL 0, rdatalen 4,
rdata `1.2.3.4`. -/
def pktA : List Nat :=
  [0, 0, 128, 0, 0, 1, 0, 1, 0, 0, 0, 0] ++ [2, 99, 110, 0] ++ [0, 1, 0, 1] ++
  [192, 12] ++ [0, 1, 0, 1, 0, 0, 0, 0, 0, 4] ++ [1, 2, 3, 4]

/-- A 34-byte reply packet like `pktA` but whose single answer is a CNAME
record (type 5) with 2-byte rdata. -/
def pktCname : List Nat :=
  [0, 0, 128, 0, 0, 1, 0, 1, 0, 0, 0, 0] ++ [2, 99, 110, 0] ++ [0, 1, 0, 1] ++
  [192, 12] ++ [0, 5, 0, 1, 0, 0, 0, 0, 0, 2] ++ [192, 12]

/-- A 20-byte query packet whose question name is `[3, 97, 98, 0]`: the
label length byte 3 exceeds the 2 bytes remaining before the name's
terminating zero, so the name decoder rejects it. -/
def pktBadLabel : List Nat :=
  [0, 0, 0, 0, 0, 1, 0, 0, 0, 0, 0, 0] ++ [3, 97, 98, 0] ++ [0, 1, 0, 1]

/-- A 20-byte query packet with a well-formed name `"\2cn"` but query
class 2 (not Internet), so the validator fails at its last check. -/
def pktQclass2 : List Nat :=
  [0, 0, 0, 0, 0, 1, 0, 0, 0, 0, 0, 0] ++ [2, 99, 110, 0] ++ [0, 1, 0, 2]

/-- A 20-byte reply packet with one question `"\2cn"` (type A class IN)
and `answer_count = 0`. -/
def pkt0Ans : List Nat :=
  [0, 0, 128, 0, 0, 1, 0, 0, 0, 0, 0, 0] ++ [2, 99, 110, 0] ++ [0, 1, 0, 1]

/-- A concrete IPv4 membership set containing exactly `1.2.3.4`. -/
def s4c : List Nat → Bool := fun l => l = [1, 2, 3, 4]

/-- A concrete (empty) IPv6 membership set. -/
def s6c : List Nat → Bool := fun _ => false

/-- `bufOf pktA` with every byte at offset ≥ 36 (i.e. outside the declared
packet length) replaced by 9: used to witness the read-footprint claim. -/
def pktAJunk : Nat → Nat := fun i => if i < 36 then bufOf pktA i else 9

/-! ## Read-footprint (agreement) lemmas

Each operation's result depends only on the bytes inside its declared
input window: two buffers that agree there give equal results.  This is
the shallow-embedding form of "never reads out of bounds". -/

theorem memchr0_from_congr (b1 b2 : Nat → Nat) (s : Nat) :
    ∀ (rem j : Nat), (∀ k : Nat, j ≤ k → k < j + rem → b1 (s + k) = b2 (s + k)) →
      memchr0_from b1 s j rem = memchr0_from b2 s j rem := by
  intro rem
  induction rem with
  | zero => intro j _; rfl
  | succ n ih =>
    intro j H
    have hj : b1 (s + j) = b2 (s + j) := H j le_rfl (by omega)
    by_cases h0 : b2 (s + j) = 0
    · simp [memchr0_from, hj, h0]
    · simp only [memchr0_from, hj, if_neg h0]
      exact ih (j + 1) fun k hk1 hk2 => H k (by omega) (by omega)

theorem memchr0_congr (b1 b2 : Nat → Nat) (s n : Nat)
    (H : ∀ k : Nat, k < n → b1 (s + k) = b2 (s + k)) :
    memchr0 b1 s n = memchr0 b2 s n :=
  memchr0_from_congr b1 b2 s n 0 fun k _ hk2 => H k (by omega)

theorem memchr0_from_some_lt (buf : Nat → Nat) (s : Nat) :
    ∀ (rem j i : Nat), memchr0_from buf s j rem = some i → j ≤ i ∧ i < j + rem := by
  intro rem
  induction rem with
  | zero => intro j i h; simp [memchr0_from] at h
  | succ n ih =>
    intro j i h
    by_cases h0 : buf (s + j) = 0
    · simp [memchr0_from, h0] at h
      omega
    · simp only [memchr0_from, if_neg h0] at h
      have := ih (j + 1) i h
      omega

theorem memchr0_some_lt (buf : Nat → Nat) (s n i : Nat)
    (h : memchr0 buf s n = some i) : i < n := by
  have := memchr0_from_some_lt buf s n 0 i h
  omega

theorem decode_name_go_congr (b1 b2 : Nat → Nat) :
    ∀ (fuel pos : Nat) (len : Int) (first : Bool),
      (∀ k : Nat, pos ≤ k → (k : Int) ≤ (pos : Int) + len → b1 k = b2 k) →
      decode_name_go b1 fuel pos len first = decode_name_go b2 fuel pos len first := by
  intro fuel
  induction fuel with
  | zero =>
    intro pos len first H
    by_cases h1 : 2 ≤ len
    · simp [decode_name_go, h1]
    · by_cases h2 : len ≠ 0
      · simp [decode_name_go, h1, h2]
      · have hp : b1 pos = b2 pos := H pos le_rfl (by omega)
        simp [decode_name_go, h1, h2, hp]
  | succ fuel ih =>
    intro pos len first H
    by_cases h1 : 2 ≤ len
    · have hp : b1 pos = b2 pos := H pos le_rfl (by omega)
      simp only [decode_name_go, if_pos h1]
      rw [hp]
      by_cases hc1 : b2 pos < 1
      · simp [hc1]
      · by_cases hc2 : DNS_DNAME_LABEL_MAXLEN < b2 pos
        · simp [hc1, hc2]
        · by_cases hc3 : len - 1 < (b2 pos : Int)
          · simp [hc1, hc2, hc3]
          · have hrec := ih (pos + 1 + b2 pos) (len - 1 - (b2 pos : Int)) false
              (fun k hk1 hk2 => H k (by omega) (by omega))
            have hlab : ((List.range (b2 pos)).map fun j => b1 (pos + 1 + j)) =
                ((List.range (b2 pos)).map fun j => b2 (pos + 1 + j)) := by
              apply List.map_congr_left
              intro j hj
              have hj' : j < b2 pos := List.mem_range.mp hj
              have hmax : b2 pos ≤ DNS_DNAME_LABEL_MAXLEN := by omega
              have : (b2 pos : Int) ≤ len - 1 := by omega
              exact H (pos + 1 + j) (by omega) (by omega)
            simp only [if_neg hc1, if_neg hc2, if_neg hc3, hrec, hlab]
    · by_cases h2 : len ≠ 0
      · simp [decode_name_go, h1, h2]
      · have hp : b1 pos = b2 pos := H pos le_rfl (by omega)
        simp [decode_name_go, h1, h2, hp]

theorem decode_name_congr (b1 b2 : Nat → Nat) (len : Int)
    (H : ∀ k : Nat, (k : Int) < len → b1 k = b2 k) :
    decode_name b1 len = decode_name b2 len := by
  by_cases h : len ≤ (DNS_NAME_ENC_MINLEN : Int)
  · simp [decode_name, h]
  · simp only [decode_name, if_neg h]
    exact decode_name_go_congr b1 b2 (len - 1).toNat 0 (len - 1) true
      (fun k _ hk2 => H k (by omega))

theorem skip_name_loop_congr (b1 b2 : Nat → Nat) :
    ∀ (fuel ptr : Nat) (len : Int),
      (∀ k : Nat, ptr ≤ k → (k : Int) < (ptr : Int) + len → b1 k = b2 k) →
      skip_name_loop b1 fuel ptr len = skip_name_loop b2 fuel ptr len := by
  intro fuel
  induction fuel with
  | zero => intro ptr len _; rfl
  | succ fuel ih =>
    intro ptr len H
    by_cases h0 : 0 < len
    · have hp : b1 ptr = b2 ptr := H ptr le_rfl (by omega)
      simp only [skip_name_loop, if_pos h0]
      rw [hp]
      by_cases hz : b2 ptr = 0
      · simp [hz]
      · by_cases hcp : DNS_DNAME_COMPRESSION_MINVAL ≤ b2 ptr
        · simp [hz, hcp]
        · by_cases hbad : DNS_DNAME_LABEL_MAXLEN < b2 ptr
          · simp [hz, hcp, hbad]
          · simp only [if_neg hz, if_neg hcp, if_neg hbad]
            exact ih (ptr + 1 + b2 ptr) (len - (1 + (b2 ptr : Int)))
              (fun k hk1 hk2 => H k (by omega) (by omega))
    · simp [skip_name_loop, h0]

theorem skip_name_congr (b1 b2 : Nat → Nat) (ptr : Nat) (len : Int)
    (H : ∀ k : Nat, ptr ≤ k → (k : Int) < (ptr : Int) + len → b1 k = b2 k) :
    skip_name b1 ptr len = skip_name b2 ptr len := by
  unfold skip_name
  rw [skip_name_loop_congr b1 b2 len.toNat ptr len H]

theorem skip_name_loop_sum (buf : Nat → Nat) :
    ∀ (fuel ptr : Nat) (len : Int) (p2 : Nat) (l2 : Int),
      skip_name_loop buf fuel ptr len = some (p2, l2) →
      (p2 : Int) + l2 = (ptr : Int) + len ∧ ptr ≤ p2 := by
  intro fuel
  induction fuel with
  | zero =>
    intro ptr len p2 l2 h
    simp [skip_name_loop] at h
    omega
  | succ fuel ih =>
    intro ptr len p2 l2 h
    by_cases h0 : 0 < len
    · simp only [skip_name_loop, if_pos h0] at h
      by_cases hz : buf ptr = 0
      · simp [hz] at h
        omega
      · by_cases hcp : DNS_DNAME_COMPRESSION_MINVAL ≤ buf ptr
        · simp [hz, hcp] at h
          omega
        · by_cases hbad : DNS_DNAME_LABEL_MAXLEN < buf ptr
          · simp [hz, hcp, hbad] at h
          · simp only [if_neg hz, if_neg hcp, if_neg hbad] at h
            have := ih (ptr + 1 + buf ptr) (len - (1 + (buf ptr : Int))) p2 l2 h
            omega
    · simp [skip_name_loop, h0] at h
      omega

theorem skip_name_sum (buf : Nat → Nat) (ptr : Nat) (len : Int) (p2 : Nat) (l2 : Int)
    (h : skip_name buf ptr len = some (p2, l2)) :
    (p2 : Int) + l2 = (ptr : Int) + len ∧ ptr ≤ p2 ∧ (SIZEOF_DNS_RECORD : Int) ≤ l2 := by
  unfold skip_name at h
  rcases hl : skip_name_loop buf len.toNat ptr len with _ | ⟨p3, l3⟩
  · rw [hl] at h; simp at h
  · rw [hl] at h
    by_cases hrec : l3 < (SIZEOF_DNS_RECORD : Int)
    · simp [hrec] at h
    · simp [hrec] at h
      obtain ⟨hp, hls⟩ := h
      have := skip_name_loop_sum buf len.toNat ptr len p3 l3 hl
      subst hp hls
      refine ⟨this.1, this.2, by omega⟩

theorem chnip_loop_congr (s4 s6 : List Nat → Bool) (b1 b2 : Nat → Nat) :
    ∀ (fuel off : Nat) (len : Int),
      (∀ k : Nat, (k : Int) < (off : Int) + len → b1 k = b2 k) →
      chnip_loop s4 s6 b1 fuel off len = chnip_loop s4 s6 b2 fuel off len := by
  intro fuel
  induction fuel with
  | zero => intro off len _; rfl
  | succ fuel ih =>
    intro off len H
    have hskip : skip_name b1 off len = skip_name b2 off len :=
      skip_name_congr b1 b2 off len fun k _ hk2 => H k hk2
    simp only [chnip_loop, hskip]
    rcases hs : skip_name b2 off len with _ | ⟨off2, len2⟩
    · rfl
    · obtain ⟨hsum1, hsum2, hsum3⟩ := skip_name_sum b2 off len off2 len2 hs
      have h10 : SIZEOF_DNS_RECORD = 10 := rfl
      have hle : ∀ d : Nat, (d : Int) < len2 → b1 (off2 + d) = b2 (off2 + d) := by
        intro d hd
        apply H
        push_cast
        omega
      have e0 : b1 off2 = b2 off2 := by have := hle 0 (by omega); simpa using this
      have e1 : b1 (off2 + 1) = b2 (off2 + 1) := hle 1 (by omega)
      have e2 : b1 (off2 + 2) = b2 (off2 + 2) := hle 2 (by omega)
      have e3 : b1 (off2 + 2 + 1) = b2 (off2 + 2 + 1) := by
        rw [show off2 + 2 + 1 = off2 + 3 from by omega]
        exact hle 3 (by omega)
      have e8 : b1 (off2 + 8) = b2 (off2 + 8) := hle 8 (by omega)
      have e9 : b1 (off2 + 8 + 1) = b2 (off2 + 8 + 1) := by
        rw [show off2 + 8 + 1 = off2 + 9 from by omega]
        exact hle 9 (by omega)
      simp only [read16, e0, e1, e2, e3, e8, e9]
      by_cases hcl : b2 (off2 + 2) * 256 + b2 (off2 + 2 + 1) ≠ DNS_CLASS_INTERNET
      · rw [if_pos hcl, if_pos hcl]
      · rw [if_neg hcl, if_neg hcl]
        by_cases hfit : len2 <
            ((SIZEOF_DNS_RECORD + (b2 (off2 + 8) * 256 + b2 (off2 + 8 + 1)) : Nat) : Int)
        · rw [if_pos hfit, if_pos hfit]
        · have hfit' : ((SIZEOF_DNS_RECORD + (b2 (off2 + 8) * 256 + b2 (off2 + 8 + 1)) : Nat) : Int)
              ≤ len2 := by omega
          have hrdata : ∀ n : Nat, n ≤ b2 (off2 + 8) * 256 + b2 (off2 + 8 + 1) →
              ((List.range n).map fun j => b1 (off2 + SIZEOF_DNS_RECORD + j)) =
              ((List.range n).map fun j => b2 (off2 + SIZEOF_DNS_RECORD + j)) := by
            intro n hn
            apply List.map_congr_left
            intro j hj
            have hj' : j < n := List.mem_range.mp hj
            apply H
            push_cast at hfit' ⊢
            omega
          rw [if_neg hfit, if_neg hfit]
          by_cases hA : b2 off2 * 256 + b2 (off2 + 1) = DNS_RECORD_TYPE_A
          · rw [if_pos hA, if_pos hA]
            by_cases hra : b2 (off2 + 8) * 256 + b2 (off2 + 8 + 1) ≠ IPV4_BINADDR_LEN
            · rw [if_pos hra, if_pos hra]
            · rw [if_neg hra, if_neg hra, hrdata IPV4_BINADDR_LEN (by omega)]
          · rw [if_neg hA, if_neg hA]
            by_cases hB : b2 off2 * 256 + b2 (off2 + 1) = DNS_RECORD_TYPE_AAAA
            · rw [if_pos hB, if_pos hB]
              by_cases hra : b2 (off2 + 8) * 256 + b2 (off2 + 8 + 1) ≠ IPV6_BINADDR_LEN
              · rw [if_pos hra, if_pos hra]
              · rw [if_neg hra, if_neg hra, hrdata IPV6_BINADDR_LEN (by omega)]
            · rw [if_neg hB, if_neg hB]
              apply ih
              intro k hk
              apply H
              push_cast at hk ⊢
              omega

theorem check_packet_too_short (q nb pn : Bool) (buf : Nat → Nat) (plen : Int)
    (h : plen < DNS_PACKET_MINSIZE) :
    check_packet q buf plen nb pn = ⟨false, none, none⟩ := by
  simp [check_packet, h]

theorem check_packet_too_long (q nb pn : Bool) (buf : Nat → Nat) (plen : Int)
    (h : DNS_PACKET_MAXSIZE < plen) :
    check_packet q buf plen nb pn = ⟨false, none, none⟩ := by
  have h1 : ¬ plen < DNS_PACKET_MINSIZE := by
    have e1 : DNS_PACKET_MINSIZE = (17 : Int) := rfl
    have e2 : DNS_PACKET_MAXSIZE = (1472 : Int) := rfl
    omega
  simp [check_packet, h1, h]

theorem check_packet_ok_len (q nb pn : Bool) (buf : Nat → Nat) (plen : Int)
    (h : (check_packet q buf plen nb pn).ok = true) :
    DNS_PACKET_MINSIZE ≤ plen ∧ plen ≤ DNS_PACKET_MAXSIZE := by
  constructor
  · by_contra hc
    rw [check_packet_too_short q nb pn buf plen (by omega)] at h
    simp at h
  · by_contra hc
    rw [check_packet_too_long q nb pn buf plen (by omega)] at h
    simp at h

theorem check_packet_congr (b1 b2 : Nat → Nat) (q nb pn : Bool) (plen : Int)
    (H : ∀ k : Nat, (k : Int) < plen → b1 k = b2 k) :
    check_packet q b1 plen nb pn = check_packet q b2 plen nb pn := by
  have h12 : SIZEOF_DNS_HEADER = 12 := rfl
  have hq4 : SIZEOF_DNS_QUERY = 4 := rfl
  by_cases h1 : plen < DNS_PACKET_MINSIZE
  · rw [check_packet_too_short q nb pn b1 plen h1, check_packet_too_short q nb pn b2 plen h1]
  · have h17 : (17 : Int) ≤ plen := by
      have e1 : DNS_PACKET_MINSIZE = (17 : Int) := rfl
      omega
    have e2 : b1 2 = b2 2 := H 2 (by omega)
    have e4 : b1 4 = b2 4 := H 4 (by omega)
    have e5 : b1 (4 + 1) = b2 (4 + 1) := H 5 (by omega)
    have hm : memchr0 b1 SIZEOF_DNS_HEADER (plen - (SIZEOF_DNS_HEADER : Int)).toNat
            = memchr0 b2 SIZEOF_DNS_HEADER (plen - (SIZEOF_DNS_HEADER : Int)).toNat := by
      apply memchr0_congr
      intro k hk
      apply H
      push_cast
      omega
    simp only [check_packet, qr_of, opcode_of, read16, e2, e4, e5, hm]
    rcases hmc : memchr0 b2 SIZEOF_DNS_HEADER (plen - (SIZEOF_DNS_HEADER : Int)).toNat with _ | i
    · simp only [hmc]
    · have hi : i < (plen - (SIZEOF_DNS_HEADER : Int)).toNat :=
        memchr0_some_lt b2 SIZEOF_DNS_HEADER _ i hmc
      have hd : decode_name (fun j => b1 (SIZEOF_DNS_HEADER + j)) ((i + 1 : Nat) : Int)
              = decode_name (fun j => b2 (SIZEOF_DNS_HEADER + j)) ((i + 1 : Nat) : Int) := by
        apply decode_name_congr
        intro k hk
        apply H
        push_cast at hk ⊢
        omega
      simp only [hmc, hd]
      by_cases hrem : plen - (SIZEOF_DNS_HEADER : Int) - ((i + 1 : Nat) : Int) < (SIZEOF_DNS_QUERY : Int)
      · rw [if_pos hrem, if_pos hrem]
      · have eqa : b1 (SIZEOF_DNS_HEADER + (i + 1) + 2) = b2 (SIZEOF_DNS_HEADER + (i + 1) + 2) := by
          apply H
          push_cast at hrem ⊢
          omega
        have eqb : b1 (SIZEOF_DNS_HEADER + (i + 1) + 2 + 1) = b2 (SIZEOF_DNS_HEADER + (i + 1) + 2 + 1) := by
          apply H
          push_cast at hrem ⊢
          omega
        rw [if_neg hrem, if_neg hrem, eqa, eqb]

/-- C1: No operation reads out of bounds.  In the shallow embedding this
is agreement under the declared input window: whenever two byte oracles
agree on the first `len` (resp. `packet_len`) bytes — resp. on
`[ptr, ptr+len)` for the name skipper — the query/reply validator, the
name decoder, the name skipper, and (for any buffer previously accepted by
the reply validator with reported encoded-name length `nl`)
`dns_chnip_check` compute identical results, for all buffer contents
including malformed answer sections, even though `skip_name`'s internal
remaining-length counter may transiently become negative. -/
theorem dns_reads_within_bounds (b1 b2 : Nat → Nat) :
    (∀ len : Int, (∀ k : Nat, (k : Int) < len → b1 k = b2 k) →
       decode_name b1 len = decode_name b2 len) ∧
    (∀ (q nb pn : Bool) (plen : Int), (∀ k : Nat, (k : Int) < plen → b1 k = b2 k) →
       check_packet q b1 plen nb pn = check_packet q b2 plen nb pn) ∧
    (∀ (ptr : Nat) (len : Int),
       (∀ k : Nat, ptr ≤ k → (k : Int) < (ptr : Int) + len → b1 k = b2 k) →
       skip_name b1 ptr len = skip_name b2 ptr len) ∧
    (∀ (s4 s6 : List Nat → Bool) (nb : Bool) (plen : Int) (nl : Nat),
       (check_packet false b1 plen nb true).ok = true →
       (check_packet false b1 plen nb true).wrote_namelen = some nl →
       (∀ k : Nat, (k : Int) < plen → b1 k = b2 k) →
       dns_chnip_check s4 s6 b1 plen nl = dns_chnip_check s4 s6 b2 plen nl) := by
  refine ⟨fun len H => decode_name_congr b1 b2 len H,
          fun q nb pn plen H => check_packet_congr b1 b2 q nb pn plen H,
          fun ptr len H => skip_name_congr b1 b2 ptr len H, ?_⟩
  intro s4 s6 nb plen nl hok _ H
  have hlen := check_packet_ok_len false nb true b1 plen hok
  have h17 : (17 : Int) ≤ plen := by
    have e1 : DNS_PACKET_MINSIZE = (17 : Int) := rfl
    omega
  have e6 : b1 6 = b2 6 := H 6 (by omega)
  have e7 : b1 (6 + 1) = b2 (6 + 1) := H 7 (by omega)
  unfold dns_chnip_check
  simp only [read16, e6, e7]
  apply chnip_loop_congr
  intro k hk
  apply H
  push_cast at hk ⊢
  omega

/-- Witness for C1: the reply packet `pktA` against the same bytes with
everything beyond offset 36 replaced by junk. -/
theorem dns_reads_within_bounds_witness :
    decode_name (bufOf pktA) 36 = decode_name pktAJunk 36 ∧
    check_packet false (bufOf pktA) 36 true true = check_packet false pktAJunk 36 true true ∧
    skip_name (bufOf pktA) 20 16 = skip_name pktAJunk 20 16 ∧
    dns_chnip_check s4c s6c (bufOf pktA) 36 4 = dns_chnip_check s4c s6c pktAJunk 36 4 := by
  have hag : ∀ k : Nat, (k : Int) < 36 → bufOf pktA k = pktAJunk k := by
    intro k hk
    have hk' : k < 36 := by exact_mod_cast hk
    simp [pktAJunk, hk']
  have h := dns_reads_within_bounds (bufOf pktA) pktAJunk
  exact ⟨h.1 36 hag, h.2.1 false true true 36 hag,
         h.2.2.1 20 16 (fun k hk1 hk2 => hag k (by push_cast at hk2 ⊢; omega)),
         h.2.2.2 s4c s6c true 36 4 (by decide) (by decide) hag⟩

/-- C8: the validator returns false whenever the length is out of bounds,
the query/response flag mismatches the declared direction, the opcode is
not the standard query opcode, or the question count is not 1 — each
independently of the rest of the buffer. -/
theorem check_packet_rejects_header_violations (q nb pn : Bool) (buf : Nat → Nat) (plen : Int)
    (h : plen < DNS_PACKET_MINSIZE ∨ DNS_PACKET_MAXSIZE < plen ∨
         qr_of buf ≠ (if q then DNS_QR_QUERY else DNS_QR_REPLY) ∨
         opcode_of buf ≠ DNS_OPCODE_QUERY ∨ read16 buf 4 ≠ 1) :
    (check_packet q buf plen nb pn).ok = false := by
  by_cases h1 : plen < DNS_PACKET_MINSIZE
  · rw [check_packet_too_short q nb pn buf plen h1]
  · by_cases h2 : DNS_PACKET_MAXSIZE < plen
    · rw [check_packet_too_long q nb pn buf plen h2]
    · by_cases h3 : qr_of buf ≠ (if q then DNS_QR_QUERY else DNS_QR_REPLY)
      · simp [check_packet, h1, h2, h3]
      · by_cases h4 : opcode_of buf ≠ DNS_OPCODE_QUERY
        · simp [check_packet, h1, h2, h3, h4]
        · by_cases h5 : read16 buf 4 ≠ 1
          · simp [check_packet, h1, h2, h3, h4, h5]
          · rcases h with h | h | h | h | h <;> contradiction

/-- Witness for C8: a 5-byte buffer is rejected (too short), and a reply
validated as a reply but carrying a query header (qr = 0) is rejected. -/
theorem check_packet_rejects_header_violations_witness :
    (check_packet true (bufOf pktA) 5 true true).ok = false ∧
    (check_packet false (bufOf pktBadLabel) 20 false false).ok = false :=
  ⟨check_packet_rejects_header_violations true true true (bufOf pktA) 5 (Or.inl (by decide)),
   check_packet_rejects_header_violations false false false (bufOf pktBadLabel) 20
     (Or.inr (Or.inr (Or.inl (by decide))))⟩

/-- C2 counterexample: `pktBadLabel`'s question name is `[3, 97, 98, 0]`,
whose label length byte 3 exceeds the 2 bytes remaining before the name's
terminating zero (the decoder rejects it), yet with `name_buf == NULL`
the validator accepts the packet; with a name buffer it rejects it. -/
theorem check_packet_skips_label_checks_cex :
    bufOf pktBadLabel 12 = 3 ∧ bufOf pktBadLabel 15 = 0 ∧
    decode_name (fun j => bufOf pktBadLabel (SIZEOF_DNS_HEADER + j)) 4 = none ∧
    (check_packet true (bufOf pktBadLabel) 20 false true).ok = true ∧
    (check_packet true (bufOf pktBadLabel) 20 true true).ok = false := by decide

/-- C2 (amended): when a name buffer IS supplied, a question name whose
decoding fails (label length 0 before the terminator, greater than 63, or
exceeding the remaining bytes) makes the validator return false; with
`name_buf == NULL` the label checks are skipped entirely and such a packet
can be accepted. -/
theorem check_packet_label_violation_rejected_with_name_buf
    (q pn : Bool) (buf : Nat → Nat) (plen : Int) (i : Nat)
    (hm : memchr0 buf SIZEOF_DNS_HEADER (plen - (SIZEOF_DNS_HEADER : Int)).toNat = some i)
    (hd : decode_name (fun j => buf (SIZEOF_DNS_HEADER + j)) ((i + 1 : Nat) : Int) = none) :
    (check_packet q buf plen true pn).ok = false := by
  by_cases h1 : plen < DNS_PACKET_MINSIZE
  · rw [check_packet_too_short q true pn buf plen h1]
  · by_cases h2 : DNS_PACKET_MAXSIZE < plen
    · rw [check_packet_too_long q true pn buf plen h2]
    · by_cases h3 : qr_of buf ≠ (if q then DNS_QR_QUERY else DNS_QR_REPLY)
      · simp [check_packet, h1, h2, h3]
      · by_cases h4 : opcode_of buf ≠ DNS_OPCODE_QUERY
        · simp [check_packet, h1, h2, h3, h4]
        · by_cases h5 : read16 buf 4 ≠ 1
          · simp [check_packet, h1, h2, h3, h4, h5]
          · unfold check_packet
            rw [hm]
            push_cast at hd
            by_cases h6 : i + 1 < DNS_NAME_ENC_MINLEN
            · simp [h1, h2, h3, h4, h5, h6]
            · by_cases h7 : DNS_NAME_ENC_MAXLEN < i + 1
              · simp [h1, h2, h3, h4, h5, h6, h7]
              · simp [h1, h2, h3, h4, h5, h6, h7, hd]

/-- Witness for the amended C2, at the concrete packet `pktBadLabel`. -/
theorem check_packet_label_violation_rejected_witness :
    (check_packet true (bufOf pktBadLabel) 20 true true).ok = false :=
  check_packet_label_violation_rejected_with_name_buf true true (bufOf pktBadLabel) 20 3
    (by decide) (by decide)

/-- C5 counterexample: on `pktQclass2` (well-formed until the query-class
check, which fails) the validator returns false, yet the `*p_namelen`
out-slot has been written (with the encoded name length 4). -/
theorem check_packet_writes_namelen_on_failure_cex :
    (check_packet true (bufOf pktQclass2) 20 false true).ok = false ∧
    (check_packet true (bufOf pktQclass2) 20 false true).wrote_namelen = some 4 := by decide

/-- C5 (amended): on failure the `*p_namelen` out-slot is unmodified,
unless the validator fails at the post-name remaining-length check or the
query-class check — on those two paths it has already been set to the
encoded name length (the decoded-name output buffer stays undefined on
failure in all cases). -/
theorem check_packet_namelen_write_on_failure (q nb : Bool) (buf : Nat → Nat) (plen : Int)
    (h : (check_packet q buf plen nb true).ok = false) :
    (check_packet q buf plen nb true).wrote_namelen = none ∨
    (∃ i : Nat, memchr0 buf SIZEOF_DNS_HEADER (plen - (SIZEOF_DNS_HEADER : Int)).toNat = some i ∧
       (check_packet q buf plen nb true).wrote_namelen = some (i + 1) ∧
       (plen - (SIZEOF_DNS_HEADER : Int) - ((i + 1 : Nat) : Int) < (SIZEOF_DNS_QUERY : Int) ∨
        read16 buf (SIZEOF_DNS_HEADER + (i + 1) + 2) ≠ DNS_CLASS_INTERNET)) := by
  by_cases h1 : plen < DNS_PACKET_MINSIZE
  · left; rw [check_packet_too_short q nb true buf plen h1]
  · by_cases h2 : DNS_PACKET_MAXSIZE < plen
    · left; rw [check_packet_too_long q nb true buf plen h2]
    · by_cases h3 : qr_of buf ≠ (if q then DNS_QR_QUERY else DNS_QR_REPLY)
      · left; simp [check_packet, h1, h2, h3]
      · by_cases h4 : opcode_of buf ≠ DNS_OPCODE_QUERY
        · left; simp [check_packet, h1, h2, h3, h4]
        · by_cases h5 : read16 buf 4 ≠ 1
          · left; simp [check_packet, h1, h2, h3, h4, h5]
          · rcases hm : memchr0 buf SIZEOF_DNS_HEADER (plen - (SIZEOF_DNS_HEADER : Int)).toNat
              with _ | i
            · left; unfold check_packet; rw [hm]; simp [h1, h2, h3, h4, h5]
            · by_cases h6 : i + 1 < DNS_NAME_ENC_MINLEN
              · left; unfold check_packet; rw [hm]; simp [h1, h2, h3, h4, h5, h6]
              · by_cases h7 : DNS_NAME_ENC_MAXLEN < i + 1
                · left; unfold check_packet; rw [hm]; simp [h1, h2, h3, h4, h5, h6, h7]
                · by_cases hnb : nb = true
                  · subst hnb
                    rcases hd : decode_name (fun j => buf (SIZEOF_DNS_HEADER + j))
                        ((i + 1 : Nat) : Int) with _ | v
                    · left
                      unfold check_packet; rw [hm]
                      push_cast at hd
                      simp [h1, h2, h3, h4, h5, h6, h7, hd]
                    · have hdP := hd; push_cast at hdP
                      by_cases hrem : plen - (SIZEOF_DNS_HEADER : Int) - ((i + 1 : Nat) : Int)
                          < (SIZEOF_DNS_QUERY : Int)
                      · have hremP := hrem; push_cast at hremP
                        right
                        exact ⟨i, rfl,
                          by unfold check_packet; rw [hm];
                             simp [h1, h2, h3, h4, h5, h6, h7, hdP, hremP],
                          Or.inl hrem⟩
                      · have hremP := hrem; push_cast at hremP
                        by_cases hqc : read16 buf (SIZEOF_DNS_HEADER + (i + 1) + 2)
                            ≠ DNS_CLASS_INTERNET
                        · right
                          exact ⟨i, rfl,
                            by unfold check_packet; rw [hm];
                               simp [h1, h2, h3, h4, h5, h6, h7, hdP, hremP, hqc],
                            Or.inr hqc⟩
                        · exfalso
                          rw [show (check_packet q buf plen true true).ok = true from
                            by unfold check_packet; rw [hm];
                               simp [h1, h2, h3, h4, h5, h6, h7, hdP, hremP, hqc]] at h
                          exact Bool.noConfusion h
                  · have hnb' : nb = false := by
                      rcases nb with _ | _
                      · rfl
                      · exact absurd rfl hnb
                    subst hnb'
                    by_cases hrem : plen - (SIZEOF_DNS_HEADER : Int) - ((i + 1 : Nat) : Int)
                        < (SIZEOF_DNS_QUERY : Int)
                    · have hremP := hrem; push_cast at hremP
                      right
                      exact ⟨i, rfl,
                        by unfold check_packet; rw [hm]; simp [h1, h2, h3, h4, h5, h6, h7, hremP],
                        Or.inl hrem⟩
                    · have hremP := hrem; push_cast at hremP
                      by_cases hqc : read16 buf (SIZEOF_DNS_HEADER + (i + 1) + 2)
                          ≠ DNS_CLASS_INTERNET
                      · right
                        exact ⟨i, rfl,
                          by unfold check_packet; rw [hm];
                             simp [h1, h2, h3, h4, h5, h6, h7, hremP, hqc],
                          Or.inr hqc⟩
                      · exfalso
                        rw [show (check_packet q buf plen false true).ok = true from
                          by unfold check_packet; rw [hm];
                             simp [h1, h2, h3, h4, h5, h6, h7, hremP, hqc]] at h
                        exact Bool.noConfusion h

/-- Witness for the amended C5, at the concrete packet `pktQclass2`. -/
theorem check_packet_namelen_write_on_failure_witness :
    (check_packet true (bufOf pktQclass2) 20 false true).wrote_namelen = none ∨
    (∃ i : Nat, memchr0 (bufOf pktQclass2) SIZEOF_DNS_HEADER
        ((20 : Int) - (SIZEOF_DNS_HEADER : Int)).toNat = some i ∧
       (check_packet true (bufOf pktQclass2) 20 false true).wrote_namelen = some (i + 1) ∧
       ((20 : Int) - (SIZEOF_DNS_HEADER : Int) - ((i + 1 : Nat) : Int) < (SIZEOF_DNS_QUERY : Int) ∨
        read16 (bufOf pktQclass2) (SIZEOF_DNS_HEADER + (i + 1) + 2) ≠ DNS_CLASS_INTERNET)) :=
  check_packet_namelen_write_on_failure true false (bufOf pktQclass2) 20 (by decide)

/-! ## Functional correctness of `decode_name` -/

theorem decode_name_go_out_false (src : Nat → Nat) :
    ∀ (ls : List Nat) (pos fuel : Nat), goodLens ls → lensMatch src pos ls = true →
      encSize ls ≤ fuel →
      decode_name_go src fuel pos ((encSize ls : Nat) : Int) false = some (decodedF src pos ls) := by
  intro ls
  induction ls with
  | nil =>
    intro pos fuel _ _ _
    cases fuel <;> simp [decode_name_go, encSize, decodedF]
  | cons l ls ih =>
    intro pos fuel hg hmatch hfuel
    obtain ⟨hl1, hl2⟩ : 1 ≤ l ∧ l ≤ DNS_DNAME_LABEL_MAXLEN := hg l (by simp)
    have h63 : DNS_DNAME_LABEL_MAXLEN = 63 := rfl
    have henc : encSize (l :: ls) = 1 + l + encSize ls := rfl
    obtain ⟨f, rfl⟩ : ∃ f, fuel = f + 1 := ⟨fuel - 1, by omega⟩
    obtain ⟨hm1, hm2⟩ : src pos = l ∧ lensMatch src (pos + 1 + l) ls = true := by
      simpa [lensMatch] using hmatch
    have hc2 : (2 : Int) ≤ ((encSize (l :: ls) : Nat) : Int) := by rw [henc]; push_cast; omega
    simp only [decode_name_go, if_pos hc2, hm1]
    rw [if_neg (by omega : ¬ l < 1), if_neg (by omega : ¬ DNS_DNAME_LABEL_MAXLEN < l),
        if_neg (show ¬ ((encSize (l :: ls) : Nat) : Int) - 1 < (l : Int) by rw [henc]; push_cast; omega)]
    have harg : ((encSize (l :: ls) : Nat) : Int) - 1 - (l : Int) = ((encSize ls : Nat) : Int) := by
      rw [henc]; push_cast; omega
    rw [harg, ih (pos + 1 + l) f (fun x hx => hg x (List.mem_cons_of_mem _ hx)) hm2
        (by rw [henc] at hfuel; omega)]
    simp [decodedF]

theorem decode_name_go_out_true (src : Nat → Nat) (l : Nat) (ls : List Nat) (pos fuel : Nat)
    (hg : goodLens (l :: ls)) (hmatch : lensMatch src pos (l :: ls) = true)
    (hfuel : encSize (l :: ls) ≤ fuel) :
    decode_name_go src fuel pos ((encSize (l :: ls) : Nat) : Int) true
      = some (decodedT src pos (l :: ls)) := by
  obtain ⟨hl1, hl2⟩ : 1 ≤ l ∧ l ≤ DNS_DNAME_LABEL_MAXLEN := hg l (by simp)
  have h63 : DNS_DNAME_LABEL_MAXLEN = 63 := rfl
  have henc : encSize (l :: ls) = 1 + l + encSize ls := rfl
  obtain ⟨f, rfl⟩ : ∃ f, fuel = f + 1 := ⟨fuel - 1, by omega⟩
  obtain ⟨hm1, hm2⟩ : src pos = l ∧ lensMatch src (pos + 1 + l) ls = true := by
    simpa [lensMatch] using hmatch
  have hc2 : (2 : Int) ≤ ((encSize (l :: ls) : Nat) : Int) := by rw [henc]; push_cast; omega
  simp only [decode_name_go, if_pos hc2, hm1]
  rw [if_neg (by omega : ¬ l < 1), if_neg (by omega : ¬ DNS_DNAME_LABEL_MAXLEN < l),
      if_neg (show ¬ ((encSize (l :: ls) : Nat) : Int) - 1 < (l : Int) by rw [henc]; push_cast; omega)]
  have harg : ((encSize (l :: ls) : Nat) : Int) - 1 - (l : Int) = ((encSize ls : Nat) : Int) := by
    rw [henc]; push_cast; omega
  rw [harg, decode_name_go_out_false src ls (pos + 1 + l) f
      (fun x hx => hg x (List.mem_cons_of_mem _ hx)) hm2 (by rw [henc] at hfuel; omega)]
  simp [decodedT]

theorem decodedF_eq (src : Nat → Nat) :
    ∀ (ls : List Nat) (pos : Nat),
      decodedF src pos ls = joinDotsPre (labelsOf src pos ls) ++ [src (pos + encSize ls)] := by
  intro ls
  induction ls with
  | nil => intro pos; simp [decodedF, labelsOf, joinDotsPre, encSize]
  | cons l ls ih =>
    intro pos
    have hpos : pos + 1 + l + encSize ls = pos + encSize (l :: ls) := by
      have : encSize (l :: ls) = 1 + l + encSize ls := rfl
      omega
    simp [decodedF, labelsOf, joinDotsPre, ih (pos + 1 + l), hpos]

theorem decodedT_eq (src : Nat → Nat) (ls : List Nat) (pos : Nat) (h : ls ≠ []) :
    decodedT src pos ls = joinDots (labelsOf src pos ls) ++ [src (pos + encSize ls)] := by
  cases ls with
  | nil => exact absurd rfl h
  | cons l ls =>
    have hpos : pos + 1 + l + encSize ls = pos + encSize (l :: ls) := by
      have : encSize (l :: ls) = 1 + l + encSize ls := rfl
      omega
    simp [decodedT, labelsOf, joinDots, decodedF_eq src ls (pos + 1 + l), hpos]

theorem decode_name_go_isSome (src : Nat → Nat) :
    ∀ (fuel pos : Nat) (len : Int) (first : Bool), len.toNat ≤ fuel →
      ((decode_name_go src fuel pos len first).isSome ↔
        ∃ ls : List Nat, goodLens ls ∧ lensMatch src pos ls = true ∧
          len = ((encSize ls : Nat) : Int)) := by
  have h63 : DNS_DNAME_LABEL_MAXLEN = 63 := rfl
  intro fuel
  induction fuel with
  | zero =>
    intro pos len first hfuel
    have hlen : len ≤ 0 := by omega
    have h2 : ¬ 2 ≤ len := by omega
    constructor
    · intro hs
      by_cases h0 : len ≠ 0
      · simp [decode_name_go, h2, h0] at hs
      · push_neg at h0
        exact ⟨[], by simp [goodLens], by simp [lensMatch], by simp [encSize, h0]⟩
    · rintro ⟨ls, hg, hmatch, henc⟩
      have hz : len = 0 := by omega
      simp [decode_name_go, h2, hz]
  | succ f ih =>
    intro pos len first hfuel
    by_cases h2 : 2 ≤ len
    · by_cases hc1 : src pos < 1
      · constructor
        · intro hs; simp [decode_name_go, h2, hc1] at hs
        · rintro ⟨ls, hg, hmatch, henc⟩
          cases ls with
          | nil => simp [encSize] at henc; omega
          | cons l ls =>
            obtain ⟨hma, _⟩ : src pos = l ∧ lensMatch src (pos + 1 + l) ls = true := by
              simpa [lensMatch] using hmatch
            have := hg l (by simp)
            omega
      · by_cases hc2 : DNS_DNAME_LABEL_MAXLEN < src pos
        · constructor
          · intro hs; simp [decode_name_go, h2, hc1, hc2] at hs
          · rintro ⟨ls, hg, hmatch, henc⟩
            cases ls with
            | nil => simp [encSize] at henc; omega
            | cons l ls =>
              obtain ⟨hma, _⟩ : src pos = l ∧ lensMatch src (pos + 1 + l) ls = true := by
                simpa [lensMatch] using hmatch
              have := hg l (by simp)
              omega
        · by_cases hc3 : len - 1 < ((src pos : Nat) : Int)
          · constructor
            · intro hs; simp [decode_name_go, h2, hc1, hc2, hc3] at hs
            · rintro ⟨ls, hg, hmatch, henc⟩
              cases ls with
              | nil => simp [encSize] at henc; omega
              | cons l ls =>
                obtain ⟨hma, _⟩ : src pos = l ∧ lensMatch src (pos + 1 + l) ls = true := by
                  simpa [lensMatch] using hmatch
                have he : encSize (l :: ls) = 1 + l + encSize ls := rfl
                rw [he] at henc
                push_cast at henc hc3
                omega
          · have ihrec := ih (pos + 1 + src pos) (len - 1 - ((src pos : Nat) : Int)) false
                (by omega)
            constructor
            · intro hs
              rcases hrec : decode_name_go src f (pos + 1 + src pos)
                  (len - 1 - ((src pos : Nat) : Int)) false with _ | rest
              · simp [decode_name_go, h2, hc1, hc2, hc3, hrec] at hs
              · have hrs : (decode_name_go src f (pos + 1 + src pos)
                    (len - 1 - ((src pos : Nat) : Int)) false).isSome := by simp [hrec]
                obtain ⟨ls', hg', hm', henc'⟩ := ihrec.mp hrs
                refine ⟨src pos :: ls', ?_, ?_, ?_⟩
                · intro x hx
                  rcases List.mem_cons.mp hx with rfl | hx'
                  · exact ⟨by omega, by omega⟩
                  · exact hg' x hx'
                · simp [lensMatch, hm']
                · have he : encSize (src pos :: ls') = 1 + src pos + encSize ls' := rfl
                  rw [he]
                  push_cast at henc' ⊢
                  omega
            · rintro ⟨ls, hg, hmatch, henc⟩
              cases ls with
              | nil => simp [encSize] at henc; omega
              | cons l ls =>
                obtain ⟨hma, hmb⟩ : src pos = l ∧ lensMatch src (pos + 1 + l) ls = true := by
                  simpa [lensMatch] using hmatch
                have he : encSize (l :: ls) = 1 + l + encSize ls := rfl
                have hx : (decode_name_go src f (pos + 1 + src pos)
                    (len - 1 - ((src pos : Nat) : Int)) false).isSome := by
                  apply ihrec.mpr
                  refine ⟨ls, fun x hx => hg x (List.mem_cons_of_mem _ hx), ?_, ?_⟩
                  · rw [hma]; exact hmb
                  · rw [he] at henc
                    push_cast at henc ⊢
                    omega
                rcases hrec : decode_name_go src f (pos + 1 + src pos)
                    (len - 1 - ((src pos : Nat) : Int)) false with _ | rest
                · rw [hrec] at hx; simp at hx
                · simp [decode_name_go, h2, hc1, hc2, hc3, hrec]
    · constructor
      · intro hs
        by_cases h0 : len ≠ 0
        · simp [decode_name_go, h2, h0] at hs
        · push_neg at h0
          exact ⟨[], by simp [goodLens], by simp [lensMatch], by simp [encSize, h0]⟩
      · rintro ⟨ls, hg, hmatch, henc⟩
        have hz : len = 0 := by
          cases ls with
          | nil => simpa [encSize] using henc
          | cons l ls =>
            have := hg l (by simp)
            have he : encSize (l :: ls) = 1 + l + encSize ls := rfl
            rw [he] at henc
            push_cast at henc
            omega
        simp [decode_name_go, h2, hz]

/-- C3: `decode_name` is correct and complete for every declared length
`len`.  (1) At or below the minimum encoding it writes exactly `"."`
NUL-terminated and succeeds.  (2) For an input made of labels of length
1–63, each prefixed by its length byte and terminated by a zero byte
consistent with `len`, it succeeds and writes the labels joined by `.`
(NUL-terminated) in original order.  (3) For `len ≥ 2` it succeeds exactly
when such a label structure exists, i.e. it fails exactly when a label
length byte is 0 or greater than 63 where a label is expected, a label
overruns the remaining declared length, or leftover length after the
labels is nonzero.  (That it never reads past `len` bytes of input is
part of the bounds theorem for claim C1.) -/
theorem decode_name_correct (src : Nat → Nat) (len : Int) (lens : List Nat) :
    (len ≤ (DNS_NAME_ENC_MINLEN : Int) → decode_name src len = some [46, 0]) ∧
    (goodLens lens → lensMatch src 0 lens = true → lens ≠ [] →
      src (encSize lens) = 0 → len = ((encSize lens : Nat) : Int) + 1 →
      decode_name src len = some (joinDots (labelsOf src 0 lens) ++ [0])) ∧
    (2 ≤ len →
      ((decode_name src len).isSome ↔
        ∃ ls : List Nat, goodLens ls ∧ lensMatch src 0 ls = true ∧
          len - 1 = ((encSize ls : Nat) : Int))) := by
  have hmin : DNS_NAME_ENC_MINLEN = 1 := rfl
  refine ⟨?_, ?_, ?_⟩
  · intro h
    simp [decode_name, h]
  · intro hg hmatch hne hterm hlen
    cases lens with
    | nil => exact absurd rfl hne
    | cons l ls =>
      obtain ⟨hl1, _⟩ : 1 ≤ l ∧ l ≤ DNS_DNAME_LABEL_MAXLEN := hg l (by simp)
      have he : encSize (l :: ls) = 1 + l + encSize ls := rfl
      have h2 : ¬ len ≤ (DNS_NAME_ENC_MINLEN : Int) := by
        rw [hlen]
        push_cast [hmin, he]
        omega
      simp only [decode_name, if_neg h2]
      have e1 : len - 1 = ((encSize (l :: ls) : Nat) : Int) := by omega
      rw [e1, Int.toNat_natCast]
      rw [decode_name_go_out_true src l ls 0 (encSize (l :: ls)) hg hmatch le_rfl]
      rw [decodedT_eq src (l :: ls) 0 hne]
      rw [Nat.zero_add, hterm]
  · intro h2
    have hns : ¬ len ≤ (DNS_NAME_ENC_MINLEN : Int) := by omega
    simp only [decode_name, if_neg hns]
    exact decode_name_go_isSome src (len - 1).toNat 0 (len - 1) true le_rfl

/-- Witness for C3: the root name, and the name `"\1a\2bc"` (labels
`"a"` and `"bc"`), decoded to `"a.bc"`. -/
theorem decode_name_correct_witness :
    decode_name (bufOf [0]) 1 = some [46, 0] ∧
    decode_name (bufOf [1, 97, 2, 98, 99, 0]) 6 = some [97, 46, 98, 99, 0] ∧
    (decode_name (bufOf [1, 97, 2, 98, 99, 0]) 6).isSome = true := by
  refine ⟨(decode_name_correct (bufOf [0]) 1 []).1 (by decide), ?_, ?_⟩
  · have h := (decode_name_correct (bufOf [1, 97, 2, 98, 99, 0]) 6 [1, 2]).2.1
      (by decide) (by decide) (by decide) (by decide) (by decide)
    exact h.trans (by decide)
  · have h := (decode_name_correct (bufOf [1, 97, 2, 98, 99, 0]) 6 [1, 2]).2.2 (by decide)
    exact h.mpr ⟨[1, 2], by decide, by decide, by decide⟩

/-- C4: the name skipper consumes exactly 1 byte on a zero length byte
(root terminator), exactly 2 bytes on a compression pointer (top two bits
set; the pointer target is never consulted), rejects any length byte in
64–191, consumes `1 + L` bytes and continues the loop for a label length
`L` in 1–63, and after the loop returns false iff fewer bytes remain than
the fixed resource-record field size, otherwise true with the cursor
advanced and the remaining length decremented accordingly. -/
theorem skip_name_steps (buf : Nat → Nat) (ptr : Nat) (len : Int) (fuel : Nat) :
    (0 < len → buf ptr = 0 →
       skip_name_loop buf len.toNat ptr len = some (ptr + 1, len - 1)) ∧
    (0 < len → DNS_DNAME_COMPRESSION_MINVAL ≤ buf ptr →
       skip_name_loop buf len.toNat ptr len = some (ptr + 2, len - 2)) ∧
    (0 < len → DNS_DNAME_LABEL_MAXLEN < buf ptr → buf ptr < DNS_DNAME_COMPRESSION_MINVAL →
       skip_name buf ptr len = none) ∧
    (0 < len → 1 ≤ buf ptr → buf ptr ≤ DNS_DNAME_LABEL_MAXLEN →
       skip_name_loop buf (fuel + 1) ptr len
         = skip_name_loop buf fuel (ptr + 1 + buf ptr) (len - (1 + (buf ptr : Int)))) ∧
    (∀ (p2 : Nat) (l2 : Int), skip_name_loop buf len.toNat ptr len = some (p2, l2) →
       (l2 < (SIZEOF_DNS_RECORD : Int) → skip_name buf ptr len = none) ∧
       ((SIZEOF_DNS_RECORD : Int) ≤ l2 → skip_name buf ptr len = some (p2, l2))) := by
  have h63 : DNS_DNAME_LABEL_MAXLEN = 63 := rfl
  have h192 : DNS_DNAME_COMPRESSION_MINVAL = 192 := rfl
  refine ⟨?_, ?_, ?_, ?_, ?_⟩
  · intro h0 hz
    obtain ⟨k, hk⟩ : ∃ k, len.toNat = k + 1 := ⟨len.toNat - 1, by omega⟩
    rw [hk]
    simp [skip_name_loop, h0, hz]
  · intro h0 hcp
    obtain ⟨k, hk⟩ : ∃ k, len.toNat = k + 1 := ⟨len.toNat - 1, by omega⟩
    rw [hk]
    have hnz : ¬ buf ptr = 0 := by omega
    simp [skip_name_loop, h0, hnz, hcp]
  · intro h0 hbig hsmall
    obtain ⟨k, hk⟩ : ∃ k, len.toNat = k + 1 := ⟨len.toNat - 1, by omega⟩
    have hnz : ¬ buf ptr = 0 := by omega
    have hncp : ¬ DNS_DNAME_COMPRESSION_MINVAL ≤ buf ptr := by omega
    unfold skip_name
    rw [hk]
    simp [skip_name_loop, h0, hnz, hncp, hbig]
  · intro h0 h1 hle
    have hnz : ¬ buf ptr = 0 := by omega
    have hncp : ¬ DNS_DNAME_COMPRESSION_MINVAL ≤ buf ptr := by omega
    have hnb : ¬ DNS_DNAME_LABEL_MAXLEN < buf ptr := by omega
    simp [skip_name_loop, h0, hnz, hncp, hnb]
  · intro p2 l2 hloop
    unfold skip_name
    rw [hloop]
    constructor
    · intro h
      show (if l2 < (SIZEOF_DNS_RECORD : Int) then none else some (p2, l2)) = none
      rw [if_pos h]
    · intro h
      show (if l2 < (SIZEOF_DNS_RECORD : Int) then none else some (p2, l2)) = some (p2, l2)
      rw [if_neg (by omega)]

/-- Witness for C4: one instance of each step (root byte, compression
pointer inside `pktA`, rejected length byte 100, normal label `"\2ab"`)
and of the post-loop check. -/
theorem skip_name_steps_witness :
    skip_name_loop (bufOf [0]) 11 0 11 = some (1, 10) ∧
    skip_name_loop (bufOf pktA) 16 20 16 = some (22, 14) ∧
    skip_name (bufOf [100]) 0 12 = none ∧
    skip_name_loop (bufOf [2, 97, 98, 0]) 4 0 14 = skip_name_loop (bufOf [2, 97, 98, 0]) 3 3 11 ∧
    skip_name (bufOf pktA) 20 16 = some (22, 14) := by
  refine ⟨?_, ?_, ?_, ?_, ?_⟩
  · exact (skip_name_steps (bufOf [0]) 0 11 0).1 (by decide) (by decide)
  · exact (skip_name_steps (bufOf pktA) 20 16 0).2.1 (by decide) (by decide)
  · exact (skip_name_steps (bufOf [100]) 0 12 0).2.2.1 (by decide) (by decide) (by decide)
  · have h := (skip_name_steps (bufOf [2, 97, 98, 0]) 0 14 3).2.2.2.1
      (by decide) (by decide) (by decide)
    exact h.trans (by decide)
  · exact ((skip_name_steps (bufOf pktA) 20 16 0).2.2.2.2 22 14 (by decide)).2 (by decide)

/-- C6: when the membership scan reaches an answer record (name skipped,
class Internet, record fits), a record of type A or AAAA yields BAD_PACKET
exactly when its declared rdata length differs from the fixed address size
(4 resp. 16); a record of any other type is skipped by advancing the
cursor by the fixed record size plus its declared rdata length, without
consulting the membership set (the step equation holds for every pair of
membership predicates). -/
theorem chnip_record_rdatalen_check (s4 s6 : List Nat → Bool) (buf : Nat → Nat)
    (fuel off off2 : Nat) (len len2 : Int)
    (hskip : skip_name buf off len = some (off2, len2))
    (hclass : read16 buf (off2 + 2) = DNS_CLASS_INTERNET)
    (hfit : ((SIZEOF_DNS_RECORD + read16 buf (off2 + 8) : Nat) : Int) ≤ len2) :
    (read16 buf off2 = DNS_RECORD_TYPE_A →
       (chnip_loop s4 s6 buf (fuel + 1) off len = DNS_IPCHK_BAD_PACKET ↔
        read16 buf (off2 + 8) ≠ IPV4_BINADDR_LEN)) ∧
    (read16 buf off2 = DNS_RECORD_TYPE_AAAA →
       (chnip_loop s4 s6 buf (fuel + 1) off len = DNS_IPCHK_BAD_PACKET ↔
        read16 buf (off2 + 8) ≠ IPV6_BINADDR_LEN)) ∧
    (read16 buf off2 ≠ DNS_RECORD_TYPE_A → read16 buf off2 ≠ DNS_RECORD_TYPE_AAAA →
       ∀ (s4x s6x : List Nat → Bool),
         chnip_loop s4x s6x buf (fuel + 1) off len
           = chnip_loop s4x s6x buf fuel (off2 + (SIZEOF_DNS_RECORD + read16 buf (off2 + 8)))
               (len2 - ((SIZEOF_DNS_RECORD + read16 buf (off2 + 8) : Nat) : Int))) := by
  refine ⟨?_, ?_, ?_⟩
  · intro hA
    simp only [chnip_loop, hskip]
    rw [if_neg (not_not_intro hclass), if_neg (by omega), if_pos hA]
    by_cases hra : read16 buf (off2 + 8) ≠ IPV4_BINADDR_LEN
    · rw [if_pos hra]
      simp [hra]
    · rw [if_neg hra]
      constructor
      · intro h
        exfalso
        rcases hs4 : s4 ((List.range IPV4_BINADDR_LEN).map
            fun j => buf (off2 + SIZEOF_DNS_RECORD + j)) with _ | _ <;>
          simp [hs4, DNS_IPCHK_IS_CHNIP, DNS_IPCHK_NOT_CHNIP, DNS_IPCHK_BAD_PACKET] at h
      · intro h
        exact absurd h hra
  · intro hB
    have hnA : ¬ read16 buf off2 = DNS_RECORD_TYPE_A := by
      intro hA
      rw [hA] at hB
      exact absurd hB (by decide)
    simp only [chnip_loop, hskip]
    rw [if_neg (not_not_intro hclass), if_neg (by omega), if_neg hnA, if_pos hB]
    by_cases hra : read16 buf (off2 + 8) ≠ IPV6_BINADDR_LEN
    · rw [if_pos hra]
      simp [hra]
    · rw [if_neg hra]
      constructor
      · intro h
        exfalso
        rcases hs6 : s6 ((List.range IPV6_BINADDR_LEN).map
            fun j => buf (off2 + SIZEOF_DNS_RECORD + j)) with _ | _ <;>
          simp [hs6, DNS_IPCHK_IS_CHNIP, DNS_IPCHK_NOT_CHNIP, DNS_IPCHK_BAD_PACKET] at h
      · intro h
        exact absurd h hra
  · intro hnA hnB s4x s6x
    simp only [chnip_loop, hskip]
    rw [if_neg (not_not_intro hclass), if_neg (by omega), if_neg hnA, if_neg hnB]

/-- Witness for C6: the A record of `pktA` (rdatalen 4, so not BAD_PACKET)
and the CNAME record of `pktCname` (skipped without consulting the set). -/
theorem chnip_record_rdatalen_check_witness :
    chnip_loop s4c s6c (bufOf pktA) 1 20 16 ≠ DNS_IPCHK_BAD_PACKET ∧
    chnip_loop s4c s6c (bufOf pktCname) 1 20 14 = chnip_loop s4c s6c (bufOf pktCname) 0 34 0 := by
  constructor
  · intro hbad
    have h := ((chnip_record_rdatalen_check s4c s6c (bufOf pktA) 0 20 22 16 14
      (by decide) (by decide) (by decide)).1 (by decide)).mp hbad
    exact h (by decide)
  · have h := (chnip_record_rdatalen_check s4c s6c (bufOf pktCname) 0 20 22 14 12
      (by decide) (by decide) (by decide)).2.2 (by decide) (by decide) s4c s6c
    exact h.trans (by decide)

theorem chnip_loop_clean_not_found (s4 s6 : List Nat → Bool) (buf : Nat → Nat) :
    ∀ (fuel off : Nat) (len : Int), answers_clean buf fuel off len = true →
      chnip_loop s4 s6 buf fuel off len = DNS_IPCHK_NOT_FOUND := by
  intro fuel
  induction fuel with
  | zero => intro off len _; rfl
  | succ f ih =>
    intro off len hc
    rcases hs : skip_name buf off len with _ | ⟨off2, len2⟩
    · simp [answers_clean, hs] at hc
    · simp only [answers_clean, hs, Bool.and_eq_true, beq_iff_eq, Bool.not_eq_true',
        beq_eq_false_iff_ne, ne_eq, decide_eq_true_eq] at hc
      obtain ⟨⟨⟨⟨hc1, hc2⟩, hc3⟩, hc4⟩, hc5⟩ := hc
      simp only [chnip_loop, hs]
      rw [if_neg (not_not_intro hc1), if_neg (by omega), if_neg hc3, if_neg hc4]
      exact ih _ _ hc5

/-- C7: for a reply accepted by the validator (reported name length `nl`),
if every one of the header's `answer_count` records passes the structural
checks and none has type A or AAAA, the scan returns NOT_FOUND — in
particular when `answer_count = 0` and when the single answer is a CNAME. -/
theorem dns_chnip_not_found_when_no_addr (s4 s6 : List Nat → Bool) (buf : Nat → Nat)
    (plen : Int) (nl : Nat) (nb : Bool)
    (hok : (check_packet false buf plen nb true).ok = true)
    (hnl : (check_packet false buf plen nb true).wrote_namelen = some nl)
    (hclean : answers_clean buf (read16 buf 6) (SIZEOF_DNS_HEADER + nl + SIZEOF_DNS_QUERY)
        (plen - ((SIZEOF_DNS_HEADER + nl + SIZEOF_DNS_QUERY : Nat) : Int)) = true) :
    dns_chnip_check s4 s6 buf plen nl = DNS_IPCHK_NOT_FOUND := by
  unfold dns_chnip_check
  exact chnip_loop_clean_not_found s4 s6 buf _ _ _ hclean

/-- Witness for C7: `pkt0Ans` (no answers) and `pktCname` (single CNAME
answer) both scan to NOT_FOUND. -/
theorem dns_chnip_not_found_witness :
    dns_chnip_check s4c s6c (bufOf pkt0Ans) 20 4 = DNS_IPCHK_NOT_FOUND ∧
    dns_chnip_check s4c s6c (bufOf pktCname) 34 4 = DNS_IPCHK_NOT_FOUND :=
  ⟨dns_chnip_not_found_when_no_addr s4c s6c (bufOf pkt0Ans) 20 4 false
      (by decide) (by decide) (by decide),
   dns_chnip_not_found_when_no_addr s4c s6c (bufOf pktCname) 34 4 false
      (by decide) (by decide) (by decide)⟩

/-- C9: end to end — for a reply accepted by the reply validator with
reported encoded-name length `nl`, whose first answer record has a
skippable name, class Internet, type A, declared rdata length 4, whose
4 rdata bytes are present and belong to the IPv4 membership set, the scan
returns IS_CHNIP ("in range"). -/
theorem dns_chnip_first_A_in_set (s4 s6 : List Nat → Bool) (buf : Nat → Nat)
    (plen len2 : Int) (nl off2 : Nat) (nb : Bool)
    (hok : (check_packet false buf plen nb true).ok = true)
    (hnl : (check_packet false buf plen nb true).wrote_namelen = some nl)
    (hcnt : 1 ≤ read16 buf 6)
    (hskip : skip_name buf (SIZEOF_DNS_HEADER + nl + SIZEOF_DNS_QUERY)
        (plen - ((SIZEOF_DNS_HEADER + nl + SIZEOF_DNS_QUERY : Nat) : Int)) = some (off2, len2))
    (hclass : read16 buf (off2 + 2) = DNS_CLASS_INTERNET)
    (htype : read16 buf off2 = DNS_RECORD_TYPE_A)
    (hrdl : read16 buf (off2 + 8) = IPV4_BINADDR_LEN)
    (hfit : ((SIZEOF_DNS_RECORD + IPV4_BINADDR_LEN : Nat) : Int) ≤ len2)
    (hmem : s4 ((List.range IPV4_BINADDR_LEN).map
        fun j => buf (off2 + SIZEOF_DNS_RECORD + j)) = true) :
    dns_chnip_check s4 s6 buf plen nl = DNS_IPCHK_IS_CHNIP := by
  unfold dns_chnip_check
  obtain ⟨k, hk⟩ : ∃ k, read16 buf 6 = k + 1 := ⟨read16 buf 6 - 1, by omega⟩
  rw [hk]
  simp only [chnip_loop, hskip]
  rw [if_neg (not_not_intro hclass), hrdl, if_neg (by omega), if_pos htype,
      if_neg (by omega : ¬ IPV4_BINADDR_LEN ≠ IPV4_BINADDR_LEN), if_pos hmem]

/-- Witness for C9: `pktA` with the membership set `s4c` containing its
rdata `1.2.3.4`. -/
theorem dns_chnip_first_A_in_set_witness :
    dns_chnip_check s4c s6c (bufOf pktA) 36 4 = DNS_IPCHK_IS_CHNIP :=
  dns_chnip_first_A_in_set s4c s6c (bufOf pktA) 36 14 4 22 false
    (by decide) (by decide) (by decide) (by decide) (by decide) (by decide)
    (by decide) (by decide) (by decide)

/-! ## Frame property of the writing operations -/

theorem memWrite_frame (m : Nat → Nat) (a v x : Nat) (h : x ≠ a) : memWrite m a v x = m x := by
  simp [memWrite, h]

theorem memcpy_frame (m : Nat → Nat) (dst src n x : Nat) (h : x < dst ∨ dst + n ≤ x) :
    memcpy m dst src n x = m x := by
  unfold memcpy
  rw [if_neg (by omega)]

theorem decode_name_go_st_frame :
    ∀ (fuel : Nat) (m : Nat → Nat) (outp srcp : Nat) (len : Int) (first : Bool) (x : Nat),
      (x < outp ∨ outp + len.toNat ≤ x) →
      (decode_name_go_st fuel m outp srcp len first).1 x = m x := by
  intro fuel
  induction fuel with
  | zero =>
    intro m outp srcp len first x _
    by_cases h2 : 2 ≤ len <;> by_cases h0 : len ≠ 0 <;> simp [decode_name_go_st, h2, h0]
  | succ f ih =>
    intro m outp srcp len first x hx
    by_cases h2 : 2 ≤ len
    · have hm1 : (if first then m else memWrite m outp 46) x = m x := by
        cases first with
        | false => exact memWrite_frame m outp 46 x (by omega)
        | true => rfl
      simp only [decode_name_go_st, if_pos h2]
      by_cases hc1 : (if first then m else memWrite m outp 46) srcp < 1
      · rw [if_pos hc1]
        exact hm1
      · rw [if_neg hc1]
        by_cases hc2 : DNS_DNAME_LABEL_MAXLEN < (if first then m else memWrite m outp 46) srcp
        · rw [if_pos hc2]
          exact hm1
        · rw [if_neg hc2]
          by_cases hc3 : len - 1 <
              (((if first then m else memWrite m outp 46) srcp : Nat) : Int)
          · rw [if_pos hc3]
            exact hm1
          · rw [if_neg hc3]
            have hrec := ih (if first then m else memWrite m outp 46)
              ((if first then outp else outp + 1) + (if first then m else memWrite m outp 46) srcp)
              (srcp + 1 + (if first then m else memWrite m outp 46) srcp)
              (len - 1 - (((if first then m else memWrite m outp 46) srcp : Nat) : Int))
              false x ?hreg
            · rw [hrec]
              exact hm1
            case hreg =>
              rcases first with _ | _ <;>
                simp only [Bool.false_eq_true, if_false, if_true, ite_true, ite_false] at hc3 ⊢ <;>
                omega
    · simp only [decode_name_go_st, if_neg h2]
      by_cases h0 : len ≠ 0 <;> simp [h0]

theorem decode_name_st_frame (m : Nat → Nat) (out src : Nat) (len : Int) (x : Nat)
    (hx : x < out ∨ out + ((len - 1).toNat + 2) ≤ x) :
    (decode_name_st m out src len).1 x = m x := by
  unfold decode_name_st
  by_cases h : len ≤ (DNS_NAME_ENC_MINLEN : Int)
  · rw [if_pos h]
    show memWrite (memWrite m out 46) (out + 1) 0 x = m x
    rw [memWrite_frame _ _ _ _ (by omega), memWrite_frame _ _ _ _ (by omega)]
  · rw [if_neg h]
    show (decode_name_go_st (len - 1).toNat (memcpy m out (src + 1) (len - 1).toNat)
        out src (len - 1) true).1 x = m x
    rw [decode_name_go_st_frame (len - 1).toNat (memcpy m out (src + 1) (len - 1).toNat)
        out src (len - 1) true x (by omega)]
    exact memcpy_frame m out (src + 1) (len - 1).toNat x (by omega)

/-- C10: the packet buffer is read-only.  In the store-passing embedding,
`check_packet_st` (which performs every pointer write of `dns.c`: the name
buffer stores of `decode_name` and the `memcpy` into it) leaves every
memory byte outside the caller's name buffer region untouched; in
particular every byte of the packet region is unmodified, wherever the
packet lives.  The `*p_namelen` store targets a separate out-slot (the
third result component), never buffer memory; `skip_name` and
`dns_chnip_check` take `const` buffers and write through no pointer at
all, which is why they are embedded as pure functions of the buffer. -/
theorem check_packet_st_frame (q pn : Bool) (m : Nat → Nat) (pb : Nat) (plen : Int)
    (nbuf : Option Nat) (x : Nat)
    (hx : ∀ out, nbuf = some out → x < out ∨ out + (DNS_NAME_ENC_MAXLEN + 1) ≤ x) :
    (check_packet_st q m pb plen nbuf pn).1 x = m x := by
  have hmax : DNS_NAME_ENC_MAXLEN = 255 := rfl
  by_cases h1 : plen < DNS_PACKET_MINSIZE
  · simp [check_packet_st, h1]
  · by_cases h2 : DNS_PACKET_MAXSIZE < plen
    · simp [check_packet_st, h1, h2]
    · by_cases h3 : m (pb + 2) / 128 ≠ (if q then DNS_QR_QUERY else DNS_QR_REPLY)
      · simp [check_packet_st, h1, h2, h3]
      · by_cases h4 : m (pb + 2) / 8 % 16 ≠ DNS_OPCODE_QUERY
        · simp [check_packet_st, h1, h2, h3, h4]
        · by_cases h5 : m (pb + 4) * 256 + m (pb + 4 + 1) ≠ 1
          · simp [check_packet_st, h1, h2, h3, h4, h5]
          · rcases hm : memchr0 m (pb + SIZEOF_DNS_HEADER)
                (plen - (SIZEOF_DNS_HEADER : Int)).toNat with _ | i
            · unfold check_packet_st
              rw [hm]
              simp [h1, h2, h3, h4, h5]
            · by_cases h6 : i + 1 < DNS_NAME_ENC_MINLEN
              · unfold check_packet_st
                rw [hm]
                simp [h1, h2, h3, h4, h5, h6]
              · by_cases h7 : DNS_NAME_ENC_MAXLEN < i + 1
                · unfold check_packet_st
                  rw [hm]
                  simp [h1, h2, h3, h4, h5, h6, h7]
                · rcases nbuf with _ | out
                  · unfold check_packet_st
                    rw [hm]
                    by_cases hrem : plen - (SIZEOF_DNS_HEADER : Int) - (((i : Nat) : Int) + 1)
                        < (SIZEOF_DNS_QUERY : Int)
                    · simp [h1, h2, h3, h4, h5, h6, h7, hrem]
                    · by_cases hqc : m (pb + SIZEOF_DNS_HEADER + (i + 1) + 2) * 256 +
                          m (pb + SIZEOF_DNS_HEADER + (i + 1) + 2 + 1) ≠ DNS_CLASS_INTERNET
                      · simp [h1, h2, h3, h4, h5, h6, h7, hrem, hqc]
                      · simp [h1, h2, h3, h4, h5, h6, h7, hrem, hqc]
                  · have hframe : (decode_name_st m out (pb + SIZEOF_DNS_HEADER)
                        (((i : Nat) : Int) + 1)).1 x = m x := by
                      apply decode_name_st_frame
                      have := hx out rfl
                      omega
                    unfold check_packet_st
                    rw [hm]
                    by_cases hdec : (decode_name_st m out (pb + SIZEOF_DNS_HEADER)
                        (((i : Nat) : Int) + 1)).2 = false
                    · simp [h1, h2, h3, h4, h5, h6, h7, hdec, hframe]
                    · by_cases hrem : plen - (SIZEOF_DNS_HEADER : Int) - (((i : Nat) : Int) + 1)
                          < (SIZEOF_DNS_QUERY : Int)
                      · simp [h1, h2, h3, h4, h5, h6, h7, hdec, hrem, hframe]
                      · by_cases hqc : (decode_name_st m out (pb + SIZEOF_DNS_HEADER)
                            (((i : Nat) : Int) + 1)).1 (pb + SIZEOF_DNS_HEADER + (i + 1) + 2) * 256 +
                            (decode_name_st m out (pb + SIZEOF_DNS_HEADER)
                            (((i : Nat) : Int) + 1)).1 (pb + SIZEOF_DNS_HEADER + (i + 1) + 2 + 1)
                            ≠ DNS_CLASS_INTERNET
                        · simp [h1, h2, h3, h4, h5, h6, h7, hdec, hrem, hqc, hframe]
                        · simp [h1, h2, h3, h4, h5, h6, h7, hdec, hrem, hqc, hframe]

/-- Witness for C10: running the validator (store-passing form) on `pktA`
placed at base 0 with a name buffer at address 100 leaves packet byte 20
unchanged. -/
theorem check_packet_st_frame_witness :
    (check_packet_st false (bufOf pktA) 0 36 (some 100) true).1 20 = bufOf pktA 20 :=
  check_packet_st_frame false true (bufOf pktA) 0 36 (some 100) 20
    (fun out h => by
      obtain rfl : out = 100 := (Option.some.inj h).symm
      exact Or.inl (by omega))

end ChinaDNS
